import Mathlib

/-!
Shallow embedding of the dhdynupdate DNS reconciliation engine
(src/dhdns.py and src/dhdynupdate.py).

The engine keeps a DNS provider's records for one hostname in sync with
the host's current IP addresses.  Provider interactions (list / remove /
add requests) are modelled as an emitted trace of `Call` values; the
provider's per-request result strings are supplied by an oracle
`resp : Nat → String` indexed by request number (the dns-list_records
request is request 0).  Python exceptions (IndexError from `del` on an
out-of-range index) and `sys.exit` are modelled by the `Outcome` type.
-/

/-- An IP address: a version tag (4 or 6 for real addresses) and the
numeric address value.  Mirrors `ipaddress.ip_address` objects, whose
equality is version plus numeric value. -/
structure Addr where
  version : Nat
  value : Nat
deriving DecidableEq

/-- Canonical textual form of an address (the `compressed` attribute of an
`ipaddress` object), modelled as an injective rendering. -/
def Addr.compressed (a : Addr) : String :=
  toString a.version ++ "#" ++ toString a.value

/-- A DNS record as returned by the provider's dns-list_records call.
`record` is the hostname field; `none` models a listing entry that lacks
the "record" key (the source tests `"record" in entry`).  `value` is the
record's address value (the source keeps the provider's string and parses
it with `ipaddress.ip_address` at each use). -/
structure DnsRecord where
  record : Option String
  rtype : String
  value : Addr
  editable : String
  comment : String
deriving DecidableEq

/-- Field access `entry[key]` for the keys used when building the
dns-remove_record request (dhdns.py line 237). -/
def DnsRecord.get (e : DnsRecord) : String → String
  | "record" => e.record.getD ""
  | "type" => e.rtype
  | "value" => e.value.compressed
  | "comment" => e.comment
  | _ => ""

/-- One provider request, as recorded in the reconciliation trace. -/
inductive Call where
  | list
  | remove (entry : DnsRecord)
  | add (address : Addr)
deriving DecidableEq

/-- Whether a trace element is a dns-remove_record request. -/
def Call.isRemove : Call → Bool
  | .remove _ => true
  | _ => false

/-- Whether a trace element is a dns-add_record request. -/
def Call.isAdd : Call → Bool
  | .add _ => true
  | _ => false

/-- The IP version a trace element operates on (0 for the list request,
which is version-neutral). -/
def Call.version : Call → Nat
  | .list => 0
  | .remove e => e.value.version
  | .add a => a.version

/-- Request parameters of the dns-remove_record request
(dhdns.py lines 237-241): a dict comprehension over the keys
("record", "type", "value") followed by key, cmd and format. -/
def remove_record_params (k : String) (e : DnsRecord) : List (String × String) :=
  (["record", "type", "value"].map fun s => (s, e.get s))
    ++ [("key", k), ("cmd", "dns-remove_record"), ("format", "json")]

/-- Request parameters of the dns-add_record request
(dhdns.py lines 256-266), in insertion order; the type field is appended
last and only for version 4 or 6 addresses. -/
def add_record_params (k host : String) (a : Addr) : List (String × String) :=
  [("key", k), ("cmd", "dns-add_record"), ("record", host),
   ("comment", "Automated DNS update by dhdynupdate"), ("format", "json"),
   ("value", a.compressed)]
    ++ (if a.version = 4 then [("type", "A")]
        else if a.version = 6 then [("type", "AAAA")] else [])

/-- Wire-level request parameters of a recorded call, given the api key and
the configured hostname. -/
def Call.toRequest (k host : String) : Call → List (String × String)
  | .list => [("key", k), ("cmd", "dns-list_records"), ("format", "json")]
  | .remove e => remove_record_params k e
  | .add a => add_record_params k host a

/-- Python `list.index(x)`: index of the first element equal to `x`. -/
def indexOf (xs : List Addr) (a : Addr) : Nat :=
  xs.findIdx fun b => decide (b = a)

/-- Python `del xs[i]`: removes the element at index `i`, or fails
(IndexError) when the index is out of range. -/
def delAt {α : Type} (xs : List α) (i : Nat) : Option (List α) :=
  if i < xs.length then some (xs.eraseIdx i) else none

/-- Sequential `del xs[i]` over a list of indices; the Bool is false when a
deletion raised IndexError, in which case the deletions made so far are
kept and processing stops. -/
def delSeq {α : Type} : List α → List Nat → List α × Bool
  | xs, [] => (xs, true)
  | xs, i :: is =>
    match delAt xs i with
    | some ys => delSeq ys is
    | none => (xs, false)

/-- Insert into a descending-sorted list of indices. -/
def insertDesc (i : Nat) : List Nat → List Nat
  | [] => [i]
  | j :: js => if j ≤ i then i :: j :: js else j :: insertDesc i js

/-- Python `sorted(xs, reverse=True)`. -/
def sortDesc (xs : List Nat) : List Nat :=
  xs.foldr insertDesc []

/-- dhdns.remove_record (lines 230-247): issues one dns-remove_record
request (parameters given by `remove_record_params`) and logs an error
when the provider result is not "success"; nothing else happens — the
rejection is neither an exception nor an exit.  `result` is the provider
response's result field.  Returns (requests issued, error logs). -/
def remove_record (e : DnsRecord) (result : String) : List Call × List String :=
  ([Call.remove e],
   if result = "success" then []
   else ["Could not remove entry for address " ++ e.value.compressed])

/-- dhdns.add_record (lines 249-275): for a version-4 or version-6 address
issues one dns-add_record request and logs an error on a non-"success"
result; any other version is fatal (`sys.exit(7)`, third component false)
before any request is issued. -/
def add_record (a : Addr) (result : String) : List Call × List String × Bool :=
  if a.version = 4 ∨ a.version = 6 then
    ([Call.add a],
     if result = "success" then []
     else ["Could not update entry for address " ++ a.compressed],
     true)
  else ([], [], false)

/-- Read-only suppression (dhdns.get_dh_dns_records lines 174-182): collect
the index (via `list.index`) of every current address whose version matches
the read-only record's address, then delete those indices in collection
order.  The source does not reverse the collected indices before deleting,
so the Bool is false when a deletion index has become out of range
(IndexError). -/
def readonly_suppress (dh : Addr) (addrs : List Addr) : List Addr × Bool :=
  delSeq addrs
    ((addrs.filter fun a => decide (a.version = dh.version)).map (indexOf addrs))

/-- dhdns.get_dh_dns_records (lines 150-183): walk the provider listing,
collecting editable entries whose "record" field equals the configured
hostname, and for each read-only entry matching the hostname suppress the
current addresses of that entry's IP version.  Returns (target records,
remaining addresses, ok); ok is false when the suppression raised
IndexError, which aborts the walk. -/
def get_dh_dns_records (host : String) :
    List DnsRecord → List Addr → List DnsRecord × List Addr × Bool
  | [], addrs => ([], addrs, true)
  | e :: rest, addrs =>
    if e.editable = "1" then
      match e.record with
      | some r =>
        if r = host then
          let t := get_dh_dns_records host rest addrs
          (e :: t.1, t.2.1, t.2.2)
        else get_dh_dns_records host rest addrs
      | none => get_dh_dns_records host rest addrs
    else
      match e.record with
      | some r =>
        if r = host then
          let s := readonly_suppress e.value addrs
          if s.2 then get_dh_dns_records host rest s.1
          else ([], s.1, false)
        else get_dh_dns_records host rest addrs
      | none => get_dh_dns_records host rest addrs

/-- Loop body of dhdns.remove_old_records (lines 190-206): iterate over the
current addresses; a same-version equal address records its index (via
`list.index` against the full address list) in `matching_index`, a
same-version differing address triggers `remove_record(entry)`, and a
different-version address does nothing.  Threads the request counter `n`
through the response oracle.  Returns (matching_index, requests, logs,
next request number). -/
def remove_old_records_loop (resp : Nat → String) (e : DnsRecord)
    (full : List Addr) :
    List Addr → List Nat → Nat → List Nat × List Call × List String × Nat
  | [], mi, n => (mi, [], [], n)
  | a :: rest, mi, n =>
    if a.version = e.value.version then
      if a = e.value then
        remove_old_records_loop resp e full rest (mi ++ [indexOf full a]) n
      else
        let rr := remove_record e (resp n)
        let t := remove_old_records_loop resp e full rest mi (n + 1)
        (t.1, rr.1 ++ t.2.1, rr.2 ++ t.2.2.1, t.2.2.2)
    else remove_old_records_loop resp e full rest mi n

/-- dhdns.remove_old_records (lines 185-206). -/
def remove_old_records (resp : Nat → String) (e : DnsRecord)
    (addrs : List Addr) (mi : List Nat) (n : Nat) :
    List Nat × List Call × List String × Nat :=
  remove_old_records_loop resp e addrs addrs mi n

/-- The target-record loop of dhdns.update_addresses (lines 216-217):
`remove_old_records` per target record, accumulating `matching_index`. -/
def editable_pass (resp : Nat → String) (addrs : List Addr) :
    List DnsRecord → List Nat → Nat → List Nat × List Call × List String × Nat
  | [], mi, n => (mi, [], [], n)
  | e :: rest, mi, n =>
    let r1 := remove_old_records resp e addrs mi n
    let r2 := editable_pass resp addrs rest r1.1 r1.2.2.2
    (r2.1, r1.2.1 ++ r2.2.1, r1.2.2.1 ++ r2.2.2.1, r2.2.2.2)

/-- The add loop of dhdns.update_addresses (lines 227-228): `add_record`
per remaining address; a non-4/6 version exits the process (ok false),
stopping the loop. -/
def add_pass (resp : Nat → String) : List Addr → Nat → List Call × List String × Bool
  | [], _ => ([], [], true)
  | a :: rest, n =>
    let r := add_record a (resp n)
    if r.2.2 then
      let t := add_pass resp rest (n + 1)
      (r.1 ++ t.1, r.2.1 ++ t.2.1, t.2.2)
    else (r.1, r.2.1, false)

/-- How a cycle of the engine ends. -/
inductive Outcome where
  | normal
  | exited (code : Nat)
  | raised
  | noAddressesFound
deriving DecidableEq

/-- The dhdns object's mutable state: the cached previous addresses and
the interface address list (`self.interface.addresses`). -/
structure DhState where
  previous_v4_address : Addr
  previous_v6_address : Addr
  addresses : List Addr
deriving DecidableEq

/-- Result of a cycle: final object state, trace of provider requests,
provider-error logs, and how the cycle ended. -/
structure CycleOut where
  st : DhState
  trace : List Call
  logs : List String
  outcome : Outcome
deriving DecidableEq

/-- dhdns.update_addresses (lines 208-228): list and filter the provider
records (request 0), run `remove_old_records` over every target record,
delete the matched address indices in reverse-sorted order, then add a
record for every remaining address.  An IndexError in either deletion
aborts the pass (`Outcome.raised`); an invalid address version in the add
loop exits with code 7. -/
def update_addresses (host : String) (resp : Nat → String)
    (recs : List DnsRecord) (st : DhState) : CycleOut :=
  let g := get_dh_dns_records host recs st.addresses
  if g.2.2 then
    let ep := editable_pass resp g.2.1 g.1 [] 1
    let ds := delSeq g.2.1 (sortDesc ep.1)
    if ds.2 then
      let ap := add_pass resp ds.1 ep.2.2.2
      { st := { st with addresses := ds.1 },
        trace := Call.list :: (ep.2.1 ++ ap.1),
        logs := ep.2.2.1 ++ ap.2.1,
        outcome := if ap.2.2 then Outcome.normal else Outcome.exited 7 }
    else
      { st := { st with addresses := ds.1 },
        trace := Call.list :: ep.2.1,
        logs := ep.2.2.1,
        outcome := Outcome.raised }
  else
    { st := { st with addresses := g.2.1 },
      trace := [Call.list],
      logs := [],
      outcome := Outcome.raised }

/-- External-IP override (dhdns.py lines 107-112): in external mode every
version-4 entry of the fetched address list is replaced by the externally
observed address. -/
def apply_external (useExternal : Bool) (ext : Addr) (addrs : List Addr) : List Addr :=
  if useExternal then addrs.map fun a => if a.version = 4 then ext else a
  else addrs

/-- The change-detection loop of dhdns.update_if_necessary (lines 114-127):
the accumulator is (update_ipv4, new_v4_address, update_ipv6,
new_v6_address); an address differing from the cached address of its
version sets the flag and the new value; other versions only warn. -/
def detect_changes_loop (st : DhState) :
    List Addr → Bool × Addr × Bool × Addr → Bool × Addr × Bool × Addr
  | [], p => p
  | a :: rest, p =>
    detect_changes_loop st rest
      (if a.version = 4 then
        (if a = st.previous_v4_address then p else (true, a, p.2.2.1, p.2.2.2))
      else if a.version = 6 then
        (if a = st.previous_v6_address then p else (p.1, p.2.1, true, a))
      else p)

/-- Change detection over an address list, started from (False,
previous_v4_address, False, previous_v6_address) as in lines 94-97. -/
def detect_changes (st : DhState) (addrs : List Addr) : Bool × Addr × Bool × Addr :=
  detect_changes_loop st addrs
    (false, st.previous_v4_address, false, st.previous_v6_address)

/-- Modelled from the spec: `interfaces.get_if_addresses` (module
`interfaces` is not under src).  Per spec §4.1, `currentAddresses` fails
fatally with NoAddressesFound when the resulting address set is empty; the
interface enumeration itself is abstracted as the input list. -/
def get_if_addresses (fetched : List Addr) : Option (List Addr) :=
  if fetched.isEmpty then none else some fetched

/-- dhdns.update_if_necessary (lines 88-148): exit(8) when the cached
interface address list is empty; refresh the address list (fatal when the
fresh enumeration is empty, per the spec-modelled AddressSource); apply the
external-IP override; detect per-version changes against the cached
previous addresses; on any change update the cached previous addresses
(lines 137-143 assign conditionally, which is equivalent to assigning the
detected new values) and run update_addresses; otherwise log and return. -/
def update_if_necessary (host : String) (useExternal : Bool) (ext : Addr)
    (resp : Nat → String) (recs : List DnsRecord) (fetched : List Addr)
    (st : DhState) : CycleOut :=
  if st.addresses.isEmpty then
    { st := st, trace := [], logs := [], outcome := Outcome.exited 8 }
  else
    match get_if_addresses fetched with
    | none => { st := st, trace := [], logs := [], outcome := Outcome.noAddressesFound }
    | some f =>
      let addrs := apply_external useExternal ext f
      let d := detect_changes st addrs
      if d.1 || d.2.2.1 then
        update_addresses host resp recs
          { previous_v4_address := d.2.1, previous_v6_address := d.2.2.2,
            addresses := addrs }
      else
        { st := { st with addresses := addrs }, trace := [], logs := [],
          outcome := Outcome.normal }

/-- Python str.rstrip(). -/
def rstrip (s : String) : String :=
  s.dropRightWhile Char.isWhitespace

/-- Result of setup_prev_addr_file: the seeded previous addresses and the
file contents written, if the file was (re)written. -/
structure PrevFileResult where
  prev4 : String
  prev6 : String
  written : Option (List String)
deriving DecidableEq

/-- dhdynupdate.setup_prev_addr_file (lines 70-104): seed the previous
addresses from the file's first two lines (line 1 when longer than 6
characters, line 2 when longer than 3); an absent file, an empty file or a
short first line causes the file to be written with the current values
(loopback-sentinel defaults "127.0.0.1" and "::1" unless loaded), one
address per line with a trailing newline.  `contents` is the file's lines
including their newline characters, or `none` when the file is absent. -/
def setup_prev_addr_file (contents : Option (List String)) : PrevFileResult :=
  match contents with
  | none =>
    { prev4 := "127.0.0.1", prev6 := "::1",
      written := some ["127.0.0.1" ++ "\n", "::1" ++ "\n"] }
  | some lines =>
    let p4w : String × Bool :=
      match lines with
      | [] => ("127.0.0.1", true)
      | l0 :: _ => if l0.length > 6 then (rstrip l0, false) else ("127.0.0.1", true)
    let p6 : String :=
      match lines with
      | _ :: l1 :: _ => if l1.length > 3 then rstrip l1 else "::1"
      | _ => "::1"
    { prev4 := p4w.1, prev6 := p6,
      written := if p4w.2 then some [p4w.1 ++ "\n", p6 ++ "\n"] else none }

/-- End of the non-daemon run (dhdynupdate.main lines 229-234): after the
single cycle, when the textual form of either cached address differs from
the value loaded at startup, the previous-address file is rewritten with
the two cached addresses, one per line. -/
def main_run_once_write (init4 init6 : String) (final4 final6 : Addr) :
    Option (List String) :=
  if final4.compressed ≠ init4 ∨ final6.compressed ≠ init6 then
    some [final4.compressed ++ "\n", final6.compressed ++ "\n"]
  else none

/-- Daemon-mode loop body (dhdynupdate.main lines 212-222): each iteration
runs update_if_necessary and sleeps; the loop contains no write of the
previous-address file.  The second component is the file write the
iteration performs. -/
def daemon_loop_iteration (host : String) (useExternal : Bool) (ext : Addr)
    (resp : Nat → String) (recs : List DnsRecord) (fetched : List Addr)
    (st : DhState) : CycleOut × Option (List String) :=
  (update_if_necessary host useExternal ext resp recs fetched st, none)

/-! ## Helper lemmas -/

theorem detect_changes_loop_id (st : DhState) (l : List Addr)
    (hs : ∀ a ∈ l, (a.version = 4 → a = st.previous_v4_address)
      ∧ (a.version = 6 → a = st.previous_v6_address)) :
    ∀ p, detect_changes_loop st l p = p := by
  induction l with
  | nil => intro p; rfl
  | cons a rest ih =>
    intro p
    have ha := hs a (List.mem_cons_self a rest)
    have hrest : ∀ b ∈ rest, (b.version = 4 → b = st.previous_v4_address)
        ∧ (b.version = 6 → b = st.previous_v6_address) :=
      fun b hb => hs b (List.mem_cons_of_mem a hb)
    unfold detect_changes_loop
    by_cases h4 : a.version = 4
    · rw [if_pos h4, if_pos (ha.1 h4)]
      exact ih hrest p
    · by_cases h6 : a.version = 6
      · rw [if_neg h4, if_pos h6, if_pos (ha.2 h6)]
        exact ih hrest p
      · rw [if_neg h4, if_neg h6]
        exact ih hrest p

theorem update_addresses_prev (host : String) (resp : Nat → String)
    (recs : List DnsRecord) (st : DhState) :
    (update_addresses host resp recs st).st.previous_v4_address = st.previous_v4_address
    ∧ (update_addresses host resp recs st).st.previous_v6_address = st.previous_v6_address := by
  unfold update_addresses
  by_cases hg : (get_dh_dns_records host recs st.addresses).2.2 = true
  · simp only [hg, if_pos rfl]
    by_cases hd : (delSeq (get_dh_dns_records host recs st.addresses).2.1
        (sortDesc (editable_pass resp (get_dh_dns_records host recs st.addresses).2.1
          (get_dh_dns_records host recs st.addresses).1 [] 1).1)).2 = true
    · simp [hd]
    · simp [hd]
  · simp [hg]

/-! ## Claim C2: no-op idempotence -/

/-- C2.  No-op idempotence: for every cycle in which the current addresses
of both IP versions (after the external-IP override) equal the
corresponding cached previous-address slots, update_if_necessary issues
zero RecordStore calls — no list, remove or add request — produces no
provider-error logs, and returns normally. -/
theorem noop_idempotence (host : String) (useExternal : Bool) (ext : Addr)
    (resp : Nat → String) (recs : List DnsRecord) (fetched : List Addr) (st : DhState)
    (hne : st.addresses ≠ []) (hf : fetched ≠ [])
    (hsame : ∀ a ∈ apply_external useExternal ext fetched,
        (a.version = 4 → a = st.previous_v4_address)
        ∧ (a.version = 6 → a = st.previous_v6_address)) :
    (update_if_necessary host useExternal ext resp recs fetched st).trace = []
    ∧ (update_if_necessary host useExternal ext resp recs fetched st).logs = []
    ∧ (update_if_necessary host useExternal ext resp recs fetched st).outcome = Outcome.normal := by
  have hie : st.addresses.isEmpty = false := List.isEmpty_eq_false.mpr hne
  have hfe : fetched.isEmpty = false := List.isEmpty_eq_false.mpr hf
  have hd : detect_changes st (apply_external useExternal ext fetched)
      = (false, st.previous_v4_address, false, st.previous_v6_address) :=
    detect_changes_loop_id st _ hsame _
  unfold update_if_necessary get_if_addresses
  rw [hie, hfe]
  simp only [Bool.false_eq_true, if_false, hd]
  exact ⟨rfl, rfl, rfl⟩

/-- Witness for `noop_idempotence` at a concrete input. -/
theorem noop_idempotence_witness :
    (([⟨4, 1⟩] : List Addr) ≠ [] ∧ ([⟨4, 1⟩] : List Addr) ≠ [])
    ∧ (update_if_necessary "h" false ⟨4, 0⟩ (fun _ => "success") [] [⟨4, 1⟩]
        { previous_v4_address := ⟨4, 1⟩, previous_v6_address := ⟨6, 1⟩,
          addresses := [⟨4, 1⟩] }).trace = []
    ∧ (update_if_necessary "h" false ⟨4, 0⟩ (fun _ => "success") [] [⟨4, 1⟩]
        { previous_v4_address := ⟨4, 1⟩, previous_v6_address := ⟨6, 1⟩,
          addresses := [⟨4, 1⟩] }).outcome = Outcome.normal := by
  refine ⟨⟨by decide, by decide⟩, ?_, ?_⟩
  · exact (noop_idempotence "h" false ⟨4, 0⟩ (fun _ => "success") [] [⟨4, 1⟩]
      { previous_v4_address := ⟨4, 1⟩, previous_v6_address := ⟨6, 1⟩, addresses := [⟨4, 1⟩] }
      (by decide) (by decide) (by decide)).1
  · exact (noop_idempotence "h" false ⟨4, 0⟩ (fun _ => "success") [] [⟨4, 1⟩]
      { previous_v4_address := ⟨4, 1⟩, previous_v6_address := ⟨6, 1⟩, addresses := [⟨4, 1⟩] }
      (by decide) (by decide) (by decide)).2.2

/-! ## Claim C5: cache updated before reconciliation -/

/-- C5.  Cache-before-reconcile: whenever update_if_necessary detects a
changed address for some version, the whole cycle is exactly a
reconciliation pass run on a state whose cached previous-address slots
already hold the detected new values; consequently, whatever the outcome
of the pass (normal, IndexError, or exit), the resulting cache holds the
new addresses. -/
theorem cache_updated_before_reconcile (host : String) (useExternal : Bool)
    (ext : Addr) (resp : Nat → String) (recs : List DnsRecord)
    (fetched : List Addr) (st : DhState)
    (hne : st.addresses ≠ []) (hf : fetched ≠ [])
    (hchange : ((detect_changes st (apply_external useExternal ext fetched)).1
        || (detect_changes st (apply_external useExternal ext fetched)).2.2.1) = true) :
    update_if_necessary host useExternal ext resp recs fetched st
      = update_addresses host resp recs
          { previous_v4_address :=
              (detect_changes st (apply_external useExternal ext fetched)).2.1,
            previous_v6_address :=
              (detect_changes st (apply_external useExternal ext fetched)).2.2.2,
            addresses := apply_external useExternal ext fetched }
    ∧ (update_if_necessary host useExternal ext resp recs fetched st).st.previous_v4_address
        = (detect_changes st (apply_external useExternal ext fetched)).2.1
    ∧ (update_if_necessary host useExternal ext resp recs fetched st).st.previous_v6_address
        = (detect_changes st (apply_external useExternal ext fetched)).2.2.2 := by
  have hie : st.addresses.isEmpty = false := List.isEmpty_eq_false.mpr hne
  have hfe : fetched.isEmpty = false := List.isEmpty_eq_false.mpr hf
  have h1 : update_if_necessary host useExternal ext resp recs fetched st
      = update_addresses host resp recs
          { previous_v4_address :=
              (detect_changes st (apply_external useExternal ext fetched)).2.1,
            previous_v6_address :=
              (detect_changes st (apply_external useExternal ext fetched)).2.2.2,
            addresses := apply_external useExternal ext fetched } := by
    unfold update_if_necessary get_if_addresses
    rw [hie, hfe]
    simp only [Bool.false_eq_true, if_false, hchange, if_pos rfl]
    rw [if_pos trivial]
  refine ⟨h1, ?_, ?_⟩
  · rw [h1]
    exact (update_addresses_prev host resp recs _).1
  · rw [h1]
    exact (update_addresses_prev host resp recs _).2

/-- Witness for `cache_updated_before_reconcile` at a concrete input. -/
theorem cache_updated_before_reconcile_witness :
    ((detect_changes
        { previous_v4_address := ⟨4, 1⟩, previous_v6_address := ⟨6, 1⟩,
          addresses := [⟨4, 1⟩] } (apply_external false ⟨4, 0⟩ [⟨4, 2⟩])).1
      || (detect_changes
        { previous_v4_address := ⟨4, 1⟩, previous_v6_address := ⟨6, 1⟩,
          addresses := [⟨4, 1⟩] } (apply_external false ⟨4, 0⟩ [⟨4, 2⟩])).2.2.1) = true
    ∧ (update_if_necessary "h" false ⟨4, 0⟩ (fun _ => "success") [] [⟨4, 2⟩]
        { previous_v4_address := ⟨4, 1⟩, previous_v6_address := ⟨6, 1⟩,
          addresses := [⟨4, 1⟩] }).st.previous_v4_address
      = (detect_changes
          { previous_v4_address := ⟨4, 1⟩, previous_v6_address := ⟨6, 1⟩,
            addresses := [⟨4, 1⟩] } (apply_external false ⟨4, 0⟩ [⟨4, 2⟩])).2.1 := by
  refine ⟨by decide, ?_⟩
  exact (cache_updated_before_reconcile "h" false ⟨4, 0⟩ (fun _ => "success") [] [⟨4, 2⟩]
    { previous_v4_address := ⟨4, 1⟩, previous_v6_address := ⟨6, 1⟩, addresses := [⟨4, 1⟩] }
    (by decide) (by decide) (by decide)).2.1

/-! ## Claim C7: empty address set is fatal -/

/-- C7.  Empty address set is fatal: in every cycle in which the set of
candidate addresses is empty, the process terminates fatally — with exit
code 8 when the engine's cached address list is already empty, and with
the spec-modelled NoAddressesFound failure of the address enumeration
otherwise — before any provider request is issued. -/
theorem empty_address_set_fatal (host : String) (useExternal : Bool) (ext : Addr)
    (resp : Nat → String) (recs : List DnsRecord) (st : DhState)
    (fetched : List Addr) (hf : fetched = []) :
    (update_if_necessary host useExternal ext resp recs fetched st).trace = []
    ∧ ((update_if_necessary host useExternal ext resp recs fetched st).outcome
          = Outcome.exited 8
       ∨ (update_if_necessary host useExternal ext resp recs fetched st).outcome
          = Outcome.noAddressesFound) := by
  subst hf
  unfold update_if_necessary get_if_addresses
  by_cases hie : st.addresses.isEmpty = true
  · rw [if_pos hie]
    exact ⟨rfl, Or.inl rfl⟩
  · rw [if_neg hie]
    exact ⟨rfl, Or.inr rfl⟩

/-- Witness for `empty_address_set_fatal` at a concrete input. -/
theorem empty_address_set_fatal_witness :
    (([] : List Addr) = [])
    ∧ (update_if_necessary "h" false ⟨4, 0⟩ (fun _ => "success") [] []
        { previous_v4_address := ⟨4, 1⟩, previous_v6_address := ⟨6, 1⟩,
          addresses := [⟨4, 1⟩] }).trace = [] := by
  refine ⟨rfl, ?_⟩
  exact (empty_address_set_fatal "h" false ⟨4, 0⟩ (fun _ => "success") []
    { previous_v4_address := ⟨4, 1⟩, previous_v6_address := ⟨6, 1⟩, addresses := [⟨4, 1⟩] }
    [] rfl).1

/-! ## Claim C1: stale removal (code bug) -/

/-- An editable AAAA record for hostname "h" whose IP version has no
counterpart among the local addresses. -/
def stale_aaaa_record : DnsRecord :=
  { record := some "h", rtype := "AAAA", value := ⟨6, 2⟩, editable := "1",
    comment := "c" }

/-- C1 evaluation.  With desired addresses holding only an IPv4 address
and an editable AAAA record present in DNS, the reconciliation pass issues
no removeRecord at all: the loop in remove_old_records only acts on local
addresses whose version matches the record, so a record of a version the
host no longer holds is silently kept, contrary to the function's own
docstring ("If a local IP address isn't found for an interface, than the
corresponding entry in DNS will be removed"). -/
theorem stale_record_not_removed :
    (update_addresses "h" (fun _ => "success") [stale_aaaa_record]
      { previous_v4_address := ⟨4, 9⟩, previous_v6_address := ⟨6, 2⟩,
        addresses := [⟨4, 1⟩] }).trace
      = [Call.list, Call.add ⟨4, 1⟩]
    ∧ Call.remove stale_aaaa_record ∉
        (update_addresses "h" (fun _ => "success") [stale_aaaa_record]
          { previous_v4_address := ⟨4, 9⟩, previous_v6_address := ⟨6, 2⟩,
            addresses := [⟨4, 1⟩] }).trace := by
  decide

/-! ## Claim C4: read-only suppression (code bug) -/

/-- A read-only A record for hostname "h". -/
def readonly_a_record : DnsRecord :=
  { record := some "h", rtype := "A", value := ⟨4, 9⟩, editable := "0",
    comment := "c" }

/-- C4 evaluation.  With two distinct local IPv4 addresses and one IPv6
address, a read-only A record matching the hostname collects the stale
indices [0, 1] and deletes them in ascending order, so the second deletion
removes the IPv6 address instead of the second IPv4 address; the surviving
IPv4 address is then added.  An addRecord for IPv4 is issued even though a
read-only IPv4 record matches the hostname, contrary to the suppression of
every address of that version (the other deletion site in the source,
update_addresses, documents that such deletions must run in reverse
order). -/
theorem readonly_multi_address_add_issued :
    (update_addresses "h" (fun _ => "success") [readonly_a_record]
      { previous_v4_address := ⟨4, 9⟩, previous_v6_address := ⟨6, 9⟩,
        addresses := [⟨4, 1⟩, ⟨4, 2⟩, ⟨6, 3⟩] }).trace
      = [Call.list, Call.add ⟨4, 2⟩]
    ∧ (update_addresses "h" (fun _ => "success") [readonly_a_record]
        { previous_v4_address := ⟨4, 9⟩, previous_v6_address := ⟨6, 9⟩,
          addresses := [⟨4, 1⟩, ⟨4, 2⟩, ⟨6, 3⟩] }).st.addresses = [⟨4, 2⟩]
    ∧ (readonly_suppress ⟨4, 9⟩ [⟨4, 1⟩, ⟨4, 2⟩]).2 = false := by
  decide

/-! ## Claim C6: persisted state -/

/-- Cached state for the daemon-mode counterexample: previous IPv4 address
4#1, while the host now holds 4#2. -/
def c6_state : DhState :=
  { previous_v4_address := ⟨4, 1⟩, previous_v6_address := ⟨6, 1⟩,
    addresses := [⟨4, 1⟩] }

/-- C6 counterexample.  A daemon-mode cycle that changes the cached
previous IPv4 address performs no write of the previous-address file: the
daemon loop (dhdynupdate.py lines 212-222) contains no file write, so the
file is not rewritten whenever a cycle changes a cached value. -/
theorem daemon_cycle_changes_cache_without_rewrite :
    (daemon_loop_iteration "h" false ⟨4, 0⟩ (fun _ => "success") [] [⟨4, 2⟩]
        c6_state).1.st.previous_v4_address ≠ c6_state.previous_v4_address
    ∧ (daemon_loop_iteration "h" false ⟨4, 0⟩ (fun _ => "success") [] [⟨4, 2⟩]
        c6_state).2 = none := by
  decide

/-- C6 as amended.  The persisted state is two lines of text (previous
IPv4 address then previous IPv6 address, each with a trailing newline);
absence of the file at startup is not an error — it is created with the
loopback-sentinel defaults 127.0.0.1 and ::1; in the non-daemon run the
file is rewritten at the end exactly when the single cycle changed either
cached value; in daemon mode the loop never rewrites the file. -/
theorem persisted_state_two_lines_rewrite :
    setup_prev_addr_file none
      = { prev4 := "127.0.0.1", prev6 := "::1",
          written := some ["127.0.0.1\n", "::1\n"] }
    ∧ (∀ i4 i6 : String, ∀ a4 a6 : Addr,
        (a4.compressed ≠ i4 ∨ a6.compressed ≠ i6) →
          main_run_once_write i4 i6 a4 a6
            = some [a4.compressed ++ "\n", a6.compressed ++ "\n"])
    ∧ (∀ i4 i6 : String, ∀ a4 a6 : Addr,
        a4.compressed = i4 → a6.compressed = i6 →
          main_run_once_write i4 i6 a4 a6 = none)
    ∧ (∀ (host : String) (u : Bool) (ext : Addr) (resp : Nat → String)
        (recs : List DnsRecord) (fetched : List Addr) (st : DhState),
        (daemon_loop_iteration host u ext resp recs fetched st).2 = none) := by
  refine ⟨by decide, ?_, ?_, fun _ _ _ _ _ _ _ => rfl⟩
  · intro i4 i6 a4 a6 hch
    unfold main_run_once_write
    rw [if_pos hch]
  · intro i4 i6 a4 a6 h4 h6
    unfold main_run_once_write
    rw [if_neg]
    push_neg
    exact ⟨h4, h6⟩

/-- Witness for `persisted_state_two_lines_rewrite` at a concrete input. -/
theorem persisted_state_two_lines_rewrite_witness :
    ((Addr.compressed ⟨4, 2⟩ ≠ "127.0.0.1" ∨ Addr.compressed ⟨6, 1⟩ ≠ "::1")
      ∧ main_run_once_write "127.0.0.1" "::1" ⟨4, 2⟩ ⟨6, 1⟩
          = some [Addr.compressed ⟨4, 2⟩ ++ "\n", Addr.compressed ⟨6, 1⟩ ++ "\n"]) := by
  refine ⟨by decide, ?_⟩
  exact persisted_state_two_lines_rewrite.2.1 "127.0.0.1" "::1" ⟨4, 2⟩ ⟨6, 1⟩ (by decide)

/-! ## Trace structure lemmas -/

theorem remove_old_records_loop_calls (resp : Nat → String) (e : DnsRecord)
    (full : List Addr) :
    ∀ (l : List Addr) (mi : List Nat) (n : Nat),
      ∀ c ∈ (remove_old_records_loop resp e full l mi n).2.1, c = Call.remove e := by
  intro l
  induction l with
  | nil =>
    intro mi n c hc
    simp [remove_old_records_loop] at hc
  | cons a rest ih =>
    intro mi n c hc
    unfold remove_old_records_loop at hc
    by_cases hv : a.version = e.value.version
    · by_cases he : a = e.value
      · rw [if_pos hv, if_pos he] at hc
        exact ih _ _ c hc
      · rw [if_pos hv, if_neg he] at hc
        simp only [remove_record, List.mem_append, List.mem_singleton,
          List.mem_cons, List.not_mem_nil, or_false] at hc
        rcases hc with hc | hc
        · exact hc
        · exact ih _ _ c hc
    · rw [if_neg hv] at hc
      exact ih _ _ c hc

theorem editable_pass_calls (resp : Nat → String) (addrs : List Addr) :
    ∀ (es : List DnsRecord) (mi : List Nat) (n : Nat),
      ∀ c ∈ (editable_pass resp addrs es mi n).2.1, ∃ e ∈ es, c = Call.remove e := by
  intro es
  induction es with
  | nil =>
    intro mi n c hc
    simp [editable_pass] at hc
  | cons e rest ih =>
    intro mi n c hc
    unfold editable_pass remove_old_records at hc
    simp only [List.mem_append] at hc
    rcases hc with hc | hc
    · exact ⟨e, List.mem_cons_self e rest,
        remove_old_records_loop_calls resp e addrs addrs _ _ c hc⟩
    · obtain ⟨x, hx, hcx⟩ := ih _ _ c hc
      exact ⟨x, List.mem_cons_of_mem e hx, hcx⟩

theorem add_record_valid (a : Addr) (r : String)
    (h : a.version = 4 ∨ a.version = 6) :
    add_record a r
      = ([Call.add a],
         if r = "success" then []
         else ["Could not update entry for address " ++ a.compressed],
         true) := by
  unfold add_record
  rw [if_pos h]

theorem add_record_invalid (a : Addr) (r : String)
    (h : ¬(a.version = 4 ∨ a.version = 6)) :
    add_record a r = ([], [], false) := by
  unfold add_record
  rw [if_neg h]

theorem add_pass_cons_valid (resp : Nat → String) (a : Addr) (rest : List Addr)
    (n : Nat) (hv : a.version = 4 ∨ a.version = 6) :
    add_pass resp (a :: rest) n
      = (Call.add a :: (add_pass resp rest (n + 1)).1,
         (if resp n = "success" then []
          else ["Could not update entry for address " ++ a.compressed])
           ++ (add_pass resp rest (n + 1)).2.1,
         (add_pass resp rest (n + 1)).2.2) := by
  simp only [add_pass]
  rw [add_record_valid a (resp n) hv]
  simp

theorem add_pass_cons_invalid (resp : Nat → String) (a : Addr) (rest : List Addr)
    (n : Nat) (hv : ¬(a.version = 4 ∨ a.version = 6)) :
    add_pass resp (a :: rest) n = ([], [], false) := by
  simp only [add_pass]
  rw [add_record_invalid a (resp n) hv]
  simp

theorem add_pass_calls (resp : Nat → String) :
    ∀ (l : List Addr) (n : Nat),
      ∀ c ∈ (add_pass resp l n).1, ∃ a, c = Call.add a := by
  intro l
  induction l with
  | nil =>
    intro n c hc
    simp [add_pass] at hc
  | cons a rest ih =>
    intro n c hc
    by_cases hv : a.version = 4 ∨ a.version = 6
    · rw [add_pass_cons_valid resp a rest n hv] at hc
      simp only [List.mem_cons] at hc
      rcases hc with hc | hc
      · exact ⟨a, hc⟩
      · exact ih _ c hc
    · rw [add_pass_cons_invalid resp a rest n hv] at hc
      simp at hc

theorem get_dh_dns_records_targets (host : String) :
    ∀ (recs : List DnsRecord) (addrs : List Addr),
      ∀ e ∈ (get_dh_dns_records host recs addrs).1,
        e.record = some host ∧ e.editable = "1" := by
  intro recs
  induction recs with
  | nil =>
    intro addrs e he
    simp [get_dh_dns_records] at he
  | cons x rest ih =>
    intro addrs e he
    simp only [get_dh_dns_records] at he
    by_cases hed : x.editable = "1"
    · rw [if_pos hed] at he
      cases hx : x.record with
      | some r =>
        simp only [hx] at he
        by_cases hr : r = host
        · rw [if_pos hr] at he
          simp only [List.mem_cons] at he
          rcases he with he | he
          · subst he
            exact ⟨by rw [hx, hr], hed⟩
          · exact ih addrs e he
        · rw [if_neg hr] at he
          exact ih addrs e he
      | none =>
        simp only [hx] at he
        exact ih addrs e he
    · rw [if_neg hed] at he
      cases hx : x.record with
      | some r =>
        simp only [hx] at he
        by_cases hr : r = host
        · rw [if_pos hr] at he
          by_cases hs : (readonly_suppress x.value addrs).2 = true
          · rw [if_pos hs] at he
            exact ih _ e he
          · rw [if_neg hs] at he
            simp at he
        · rw [if_neg hr] at he
          exact ih addrs e he
      | none =>
        simp only [hx] at he
        exact ih addrs e he

theorem update_addresses_trace_split (host : String) (resp : Nat → String)
    (recs : List DnsRecord) (st : DhState) :
    ∃ rm ad, (update_addresses host resp recs st).trace = Call.list :: (rm ++ ad)
      ∧ (∀ c ∈ rm, ∃ e ∈ (get_dh_dns_records host recs st.addresses).1,
            c = Call.remove e)
      ∧ (∀ c ∈ ad, ∃ a, c = Call.add a) := by
  simp only [update_addresses]
  by_cases hg : (get_dh_dns_records host recs st.addresses).2.2 = true
  · rw [if_pos hg]
    by_cases hd : (delSeq (get_dh_dns_records host recs st.addresses).2.1
        (sortDesc (editable_pass resp (get_dh_dns_records host recs st.addresses).2.1
          (get_dh_dns_records host recs st.addresses).1 [] 1).1)).2 = true
    · rw [if_pos hd]
      refine ⟨_, _, rfl, ?_, ?_⟩
      · exact fun c hc => editable_pass_calls resp _ _ _ _ c hc
      · exact fun c hc => add_pass_calls resp _ _ c hc
    · rw [if_neg hd]
      refine ⟨(editable_pass resp (get_dh_dns_records host recs st.addresses).2.1
          (get_dh_dns_records host recs st.addresses).1 [] 1).2.1, [], by simp, ?_, by simp⟩
      exact fun c hc => editable_pass_calls resp _ _ _ _ c hc
  · rw [if_neg hg]
    exact ⟨[], [], rfl, by simp, by simp⟩

theorem append_pos_lt {α : Type} (t l1 l2 : List α) (heq : t = l1 ++ l2)
    (P Q : α → Bool)
    (h1 : ∀ c ∈ l1, Q c = false) (h2 : ∀ c ∈ l2, P c = false) (i j : Nat)
    (hi : i < t.length) (hj : j < t.length)
    (hP : P (t[i]) = true) (hQ : Q (t[j]) = true) : i < j := by
  subst heq
  rcases Nat.lt_or_ge i l1.length with hi1 | hi1
  · rcases Nat.lt_or_ge j l1.length with hj1 | hj1
    · exfalso
      have hgj : (l1 ++ l2)[j] = l1[j] := List.getElem_append_left hj1
      rw [hgj] at hQ
      rw [h1 _ (List.getElem_mem _)] at hQ
      exact Bool.false_ne_true hQ
    · exact Nat.lt_of_lt_of_le hi1 hj1
  · exfalso
    have hb : i - l1.length < l2.length := by
      rw [List.length_append] at hi
      omega
    have hgi : (l1 ++ l2)[i] = l2[i - l1.length] := List.getElem_append_right hi1
    rw [hgi] at hP
    rw [h2 _ (List.getElem_mem _)] at hP
    exact Bool.false_ne_true hP

/-! ## Claim C3: removes before adds -/

/-- C3.  Order invariant: within a single reconciliation pass, for any IP
version for which both a removeRecord and an addRecord are issued, every
removeRecord is issued before any addRecord of that version (the pass in
fact issues all removes before all adds, for every version). -/
theorem removes_before_adds (host : String) (resp : Nat → String)
    (recs : List DnsRecord) (st : DhState) (v : Nat) (i j : Nat)
    (hi : i < (update_addresses host resp recs st).trace.length)
    (hj : j < (update_addresses host resp recs st).trace.length)
    (hrem : Call.isRemove ((update_addresses host resp recs st).trace[i]) = true)
    (_hremv : Call.version ((update_addresses host resp recs st).trace[i]) = v)
    (hadd : Call.isAdd ((update_addresses host resp recs st).trace[j]) = true)
    (_haddv : Call.version ((update_addresses host resp recs st).trace[j]) = v) :
    i < j := by
  obtain ⟨rm, ad, htr, hrm, had⟩ := update_addresses_trace_split host resp recs st
  have htr2 : (update_addresses host resp recs st).trace = (Call.list :: rm) ++ ad := by
    rw [htr]
    rfl
  refine append_pos_lt _ (Call.list :: rm) ad htr2 Call.isRemove Call.isAdd
    ?_ ?_ i j hi hj hrem hadd
  · intro c hc
    rcases List.mem_cons.mp hc with hc | hc
    · subst hc
      rfl
    · obtain ⟨e, _, hce⟩ := hrm c hc
      subst hce
      rfl
  · intro c hc
    obtain ⟨a, hca⟩ := had c hc
    subst hca
    rfl

/-- An editable A record for hostname "h" whose value differs from the
local IPv4 address, driving a remove followed by an add. -/
def editable_stale_a_record : DnsRecord :=
  { record := some "h", rtype := "A", value := ⟨4, 9⟩, editable := "1",
    comment := "c" }

/-- Witness for `removes_before_adds` at a concrete input whose trace is
[list, remove, add] with both operations on version 4. -/
theorem removes_before_adds_witness :
    Call.isRemove ((update_addresses "h" (fun _ => "success") [editable_stale_a_record]
      { previous_v4_address := ⟨4, 9⟩, previous_v6_address := ⟨6, 9⟩,
        addresses := [⟨4, 1⟩] }).trace.get ⟨1, by decide⟩) = true
    ∧ Call.isAdd ((update_addresses "h" (fun _ => "success") [editable_stale_a_record]
      { previous_v4_address := ⟨4, 9⟩, previous_v6_address := ⟨6, 9⟩,
        addresses := [⟨4, 1⟩] }).trace.get ⟨2, by decide⟩) = true
    ∧ (1 : Nat) < 2 := by
  refine ⟨by decide, by decide, ?_⟩
  exact removes_before_adds "h" (fun _ => "success") [editable_stale_a_record]
    { previous_v4_address := ⟨4, 9⟩, previous_v6_address := ⟨6, 9⟩,
      addresses := [⟨4, 1⟩] }
    4 1 2 (by decide) (by decide) (by decide) (by decide) (by decide) (by decide)

/-! ## Claim C8: remove-request field exactness -/

theorem trace_remove_targets (host : String) (resp : Nat → String)
    (recs : List DnsRecord) (st : DhState) (e : DnsRecord)
    (hc : Call.remove e ∈ (update_addresses host resp recs st).trace) :
    e ∈ (get_dh_dns_records host recs st.addresses).1 := by
  obtain ⟨rm, ad, htr, hrm, had⟩ := update_addresses_trace_split host resp recs st
  rw [htr] at hc
  rcases List.mem_cons.mp hc with hc | hc
  · exact absurd hc (by simp)
  · rcases List.mem_append.mp hc with hc | hc
    · obtain ⟨x, hx, hcx⟩ := hrm _ hc
      have hex : e = x := by
        injection hcx
      rw [hex]
      exact hx
    · obtain ⟨a, hca⟩ := had _ hc
      exact absurd hca (by simp)

theorem remove_record_params_unfold (k : String) (e : DnsRecord) :
    remove_record_params k e
      = [("record", e.record.getD ""), ("type", e.rtype),
         ("value", e.value.compressed), ("key", k),
         ("cmd", "dns-remove_record"), ("format", "json")] := rfl

/-- C8.  Remove-request field exactness: every dns-remove_record request
issued during a reconciliation pass carries exactly the fields record,
type and value taken from the record being removed, plus the fixed key,
cmd and format parameters, and nothing else — in particular the record's
comment field is dropped. -/
theorem remove_request_fields_exact (k host : String) (resp : Nat → String)
    (recs : List DnsRecord) (st : DhState) (e : DnsRecord)
    (hc : Call.remove e ∈ (update_addresses host resp recs st).trace) :
    Call.toRequest k host (Call.remove e)
      = [("record", host), ("type", e.rtype), ("value", e.value.compressed),
         ("key", k), ("cmd", "dns-remove_record"), ("format", "json")]
    ∧ (Call.toRequest k host (Call.remove e)).map Prod.fst
      = ["record", "type", "value", "key", "cmd", "format"]
    ∧ "comment" ∉ (Call.toRequest k host (Call.remove e)).map Prod.fst := by
  have hrec : e.record = some host :=
    (get_dh_dns_records_targets host recs st.addresses e
      (trace_remove_targets host resp recs st e hc)).1
  have hreq : Call.toRequest k host (Call.remove e)
      = [("record", host), ("type", e.rtype), ("value", e.value.compressed),
         ("key", k), ("cmd", "dns-remove_record"), ("format", "json")] := by
    show remove_record_params k e = _
    rw [remove_record_params_unfold, hrec]
    rfl
  refine ⟨hreq, ?_, ?_⟩
  · rw [hreq]
    rfl
  · rw [hreq]
    simp

/-- Witness for `remove_request_fields_exact` at a concrete input. -/
theorem remove_request_fields_exact_witness :
    Call.remove editable_stale_a_record ∈
      (update_addresses "h" (fun _ => "success") [editable_stale_a_record]
        { previous_v4_address := ⟨4, 9⟩, previous_v6_address := ⟨6, 9⟩,
          addresses := [⟨4, 1⟩] }).trace
    ∧ Call.toRequest "k" "h" (Call.remove editable_stale_a_record)
        = [("record", "h"), ("type", "A"), ("value", Addr.compressed ⟨4, 9⟩),
           ("key", "k"), ("cmd", "dns-remove_record"), ("format", "json")] := by
  refine ⟨by decide, ?_⟩
  have h := remove_request_fields_exact "k" "h" (fun _ => "success")
    [editable_stale_a_record]
    { previous_v4_address := ⟨4, 9⟩, previous_v6_address := ⟨6, 9⟩,
      addresses := [⟨4, 1⟩] }
    editable_stale_a_record (by decide)
  rw [h.1]
  decide

/-! ## Claim C9: provider rejection is non-fatal -/

theorem remove_old_records_loop_resp (r1 r2 : Nat → String) (e : DnsRecord)
    (full : List Addr) :
    ∀ (l : List Addr) (mi : List Nat) (n : Nat),
      (remove_old_records_loop r1 e full l mi n).1
        = (remove_old_records_loop r2 e full l mi n).1
      ∧ (remove_old_records_loop r1 e full l mi n).2.1
        = (remove_old_records_loop r2 e full l mi n).2.1
      ∧ (remove_old_records_loop r1 e full l mi n).2.2.2
        = (remove_old_records_loop r2 e full l mi n).2.2.2 := by
  intro l
  induction l with
  | nil =>
    intro mi n
    exact ⟨rfl, rfl, rfl⟩
  | cons a rest ih =>
    intro mi n
    simp only [remove_old_records_loop]
    by_cases hv : a.version = e.value.version
    · by_cases he : a = e.value
      · rw [if_pos hv, if_pos he, if_pos hv, if_pos he]
        exact ih _ _
      · rw [if_pos hv, if_neg he, if_pos hv, if_neg he]
        simp only [remove_record]
        exact ⟨(ih mi (n + 1)).1, by rw [(ih mi (n + 1)).2.1],
          (ih mi (n + 1)).2.2⟩
    · rw [if_neg hv, if_neg hv]
      exact ih _ _

theorem editable_pass_resp (r1 r2 : Nat → String) (addrs : List Addr) :
    ∀ (es : List DnsRecord) (mi : List Nat) (n : Nat),
      (editable_pass r1 addrs es mi n).1 = (editable_pass r2 addrs es mi n).1
      ∧ (editable_pass r1 addrs es mi n).2.1 = (editable_pass r2 addrs es mi n).2.1
      ∧ (editable_pass r1 addrs es mi n).2.2.2
        = (editable_pass r2 addrs es mi n).2.2.2 := by
  intro es
  induction es with
  | nil =>
    intro mi n
    exact ⟨rfl, rfl, rfl⟩
  | cons e rest ih =>
    intro mi n
    have h1 := remove_old_records_loop_resp r1 r2 e addrs addrs mi n
    simp only [editable_pass, remove_old_records]
    rw [h1.1, h1.2.1, h1.2.2]
    have h2 := ih (remove_old_records_loop r2 e addrs addrs mi n).1
      (remove_old_records_loop r2 e addrs addrs mi n).2.2.2
    rw [h2.1, h2.2.1, h2.2.2]
    exact ⟨rfl, rfl, rfl⟩

theorem add_pass_resp (r1 r2 : Nat → String) :
    ∀ (l : List Addr) (n : Nat),
      (add_pass r1 l n).1 = (add_pass r2 l n).1
      ∧ (add_pass r1 l n).2.2 = (add_pass r2 l n).2.2 := by
  intro l
  induction l with
  | nil =>
    intro n
    exact ⟨rfl, rfl⟩
  | cons a rest ih =>
    intro n
    by_cases hv : a.version = 4 ∨ a.version = 6
    · rw [add_pass_cons_valid r1 a rest n hv, add_pass_cons_valid r2 a rest n hv]
      exact ⟨by rw [(ih (n + 1)).1], (ih (n + 1)).2⟩
    · rw [add_pass_cons_invalid r1 a rest n hv, add_pass_cons_invalid r2 a rest n hv]
      exact ⟨rfl, rfl⟩

theorem update_addresses_resp (host : String) (r1 r2 : Nat → String)
    (recs : List DnsRecord) (st : DhState) :
    (update_addresses host r1 recs st).st = (update_addresses host r2 recs st).st
    ∧ (update_addresses host r1 recs st).trace
        = (update_addresses host r2 recs st).trace
    ∧ (update_addresses host r1 recs st).outcome
        = (update_addresses host r2 recs st).outcome := by
  have hep := editable_pass_resp r1 r2 (get_dh_dns_records host recs st.addresses).2.1
    (get_dh_dns_records host recs st.addresses).1 [] 1
  simp only [update_addresses]
  rw [hep.1, hep.2.1, hep.2.2]
  have hap := add_pass_resp r1 r2
    (delSeq (get_dh_dns_records host recs st.addresses).2.1
      (sortDesc (editable_pass r2 (get_dh_dns_records host recs st.addresses).2.1
        (get_dh_dns_records host recs st.addresses).1 [] 1).1)).1
    (editable_pass r2 (get_dh_dns_records host recs st.addresses).2.1
      (get_dh_dns_records host recs st.addresses).1 [] 1).2.2.2
  rw [hap.1, hap.2]
  by_cases hg : (get_dh_dns_records host recs st.addresses).2.2 = true
  · by_cases hd : (delSeq (get_dh_dns_records host recs st.addresses).2.1
        (sortDesc (editable_pass r2 (get_dh_dns_records host recs st.addresses).2.1
          (get_dh_dns_records host recs st.addresses).1 [] 1).1)).2 = true
    · simp only [hg, hd, if_true, eq_self_iff_true]
      exact ⟨trivial, trivial, trivial⟩
    · simp only [hg, hd, if_true, eq_self_iff_true, Bool.false_eq_true, if_false]
      exact ⟨trivial, trivial, trivial⟩
  · simp only [hg, Bool.false_eq_true, if_false]
    exact ⟨trivial, trivial, trivial⟩

/-- C9.  Provider rejection is non-fatal: the provider's per-request
results influence only the error logging — the state, the full request
trace and the outcome of a reconciliation pass are identical to those of
an all-success run, so a rejected add or remove never terminates the
process and the pass continues with the remaining records and addresses;
and each rejected remove or add produces an error log entry. -/
theorem provider_rejection_nonfatal :
    (∀ (host : String) (resp : Nat → String) (recs : List DnsRecord) (st : DhState),
      (update_addresses host resp recs st).st
          = (update_addresses host (fun _ => "success") recs st).st
      ∧ (update_addresses host resp recs st).trace
          = (update_addresses host (fun _ => "success") recs st).trace
      ∧ (update_addresses host resp recs st).outcome
          = (update_addresses host (fun _ => "success") recs st).outcome)
    ∧ (∀ (e : DnsRecord) (r : String), r ≠ "success" →
        (remove_record e r).2
          = ["Could not remove entry for address " ++ e.value.compressed])
    ∧ (∀ (a : Addr) (r : String), r ≠ "success" →
        a.version = 4 ∨ a.version = 6 →
        (add_record a r).2.1
          = ["Could not update entry for address " ++ a.compressed]) := by
  refine ⟨?_, ?_, ?_⟩
  · intro host resp recs st
    exact update_addresses_resp host resp (fun _ => "success") recs st
  · intro e r hr
    simp only [remove_record]
    rw [if_neg hr]
  · intro a r hr hv
    rw [add_record_valid a r hv]
    simp only [if_neg hr]

/-- Witness for `provider_rejection_nonfatal` at a concrete input: a
rejected remove logs an error, and a rejecting oracle leaves trace and
outcome identical to the all-success run. -/
theorem provider_rejection_nonfatal_witness :
    ("failure" ≠ "success"
      ∧ (remove_record editable_stale_a_record "failure").2
          = ["Could not remove entry for address "
              ++ Addr.compressed ⟨4, 9⟩])
    ∧ (update_addresses "h" (fun _ => "failure") [editable_stale_a_record]
        { previous_v4_address := ⟨4, 9⟩, previous_v6_address := ⟨6, 9⟩,
          addresses := [⟨4, 1⟩] }).trace
      = (update_addresses "h" (fun _ => "success") [editable_stale_a_record]
        { previous_v4_address := ⟨4, 9⟩, previous_v6_address := ⟨6, 9⟩,
          addresses := [⟨4, 1⟩] }).trace := by
  refine ⟨⟨by decide, ?_⟩, ?_⟩
  · exact provider_rejection_nonfatal.2.1 editable_stale_a_record "failure" (by decide)
  · exact (provider_rejection_nonfatal.1 "h" (fun _ => "failure")
      [editable_stale_a_record]
      { previous_v4_address := ⟨4, 9⟩, previous_v6_address := ⟨6, 9⟩,
        addresses := [⟨4, 1⟩] }).2.1

/-! ## Claim C10: listing entries without a "record" field are ignored -/

theorem get_dh_skip_recordless (host : String) (e : DnsRecord)
    (he : e.record = none) :
    ∀ (l1 l2 : List DnsRecord) (addrs : List Addr),
      get_dh_dns_records host (l1 ++ e :: l2) addrs
        = get_dh_dns_records host (l1 ++ l2) addrs := by
  intro l1
  induction l1 with
  | nil =>
    intro l2 addrs
    show get_dh_dns_records host (e :: l2) addrs = get_dh_dns_records host l2 addrs
    simp only [get_dh_dns_records, he]
    by_cases hed : e.editable = "1"
    · rw [if_pos hed]
    · rw [if_neg hed]
  | cons x xs ih =>
    intro l2 addrs
    show get_dh_dns_records host (x :: (xs ++ e :: l2)) addrs
        = get_dh_dns_records host (x :: (xs ++ l2)) addrs
    simp only [get_dh_dns_records]
    by_cases hed : x.editable = "1"
    · rw [if_pos hed, if_pos hed]
      cases hx : x.record with
      | some r =>
        simp only [hx]
        by_cases hr : r = host
        · rw [if_pos hr, if_pos hr, ih l2 addrs]
        · rw [if_neg hr, if_neg hr]
          exact ih l2 addrs
      | none =>
        simp only [hx]
        exact ih l2 addrs
    · rw [if_neg hed, if_neg hed]
      cases hx : x.record with
      | some r =>
        simp only [hx]
        by_cases hr : r = host
        · rw [if_pos hr, if_pos hr]
          by_cases hs : (readonly_suppress x.value addrs).2 = true
          · rw [if_pos hs, if_pos hs, ih l2 _]
          · rw [if_neg hs, if_neg hs]
        · rw [if_neg hr, if_neg hr]
          exact ih l2 addrs
      | none =>
        simp only [hx]
        exact ih l2 addrs

/-- C10.  A listed provider record that lacks a "record" field is ignored
entirely by the reconciliation pass: removing it from the listing changes
nothing — it is never removed, never matched-kept, never suppresses any
desired address, and the whole cycle result (state, trace, logs, outcome)
is unchanged, regardless of the entry's editable flag or value. -/
theorem recordless_entry_ignored (host : String) (resp : Nat → String)
    (l1 l2 : List DnsRecord) (e : DnsRecord) (st : DhState)
    (he : e.record = none) :
    update_addresses host resp (l1 ++ e :: l2) st
      = update_addresses host resp (l1 ++ l2) st := by
  simp only [update_addresses]
  rw [get_dh_skip_recordless host e he l1 l2 st.addresses]

/-- A listing entry with no "record" field. -/
def recordless_record : DnsRecord :=
  { record := none, rtype := "A", value := ⟨4, 7⟩, editable := "1",
    comment := "x" }

/-- An editable A record for hostname "h" used alongside
`recordless_record` in the C10 witness. -/
def plain_a_record : DnsRecord :=
  { record := some "h", rtype := "A", value := ⟨4, 5⟩, editable := "1",
    comment := "y" }

/-- Witness for `recordless_entry_ignored` at a concrete input. -/
theorem recordless_entry_ignored_witness :
    recordless_record.record = none
    ∧ update_addresses "h" (fun _ => "success")
        ([plain_a_record] ++ recordless_record :: []) 
        { previous_v4_address := ⟨4, 5⟩, previous_v6_address := ⟨6, 1⟩,
          addresses := [⟨4, 1⟩] }
      = update_addresses "h" (fun _ => "success") ([plain_a_record] ++ [])
        { previous_v4_address := ⟨4, 5⟩, previous_v6_address := ⟨6, 1⟩,
          addresses := [⟨4, 1⟩] } := by
  refine ⟨rfl, ?_⟩
  exact recordless_entry_ignored "h" (fun _ => "success") [plain_a_record] []
    recordless_record
    { previous_v4_address := ⟨4, 5⟩, previous_v6_address := ⟨6, 1⟩,
      addresses := [⟨4, 1⟩] } rfl
